import Mathlib

/-!
Verification of the `amethyst.core.obj` record framework (file
`src/amethyst/core/obj.py`): a shallow embedding of its value model,
validator (`Attr`) algebra, metaclass schema check, record operations,
validation strategies and the class-tagged JSON codec, together with
theorems settling the specification claims.

Modelling conventions:
* Python values relevant to the library are embedded as `PyValue`
  (JSON primitives, lists, dicts with string keys, sets, frozensets,
  instances of the modelled `Object` subclass, and opaque values that no
  JSON encoder accepts).  Python dicts are insertion-ordered association
  lists with unique keys, which `PyDict` mirrors.
* Functions that may raise return `Except PyErr`.  Mutation of `self`
  is explicit state passing of `RecordState`; where a claim concerns
  mutation of an argument (e.g. `load_data` popping a key from the
  caller's dict) the function also returns the argument's final value.
* The string layer of `json.dumps`/`json.loads` is external to the
  repository (delegated to the standard codec); it is modelled as the
  identity on the already-encoded tree.  Everything the repository
  itself does around it (fallback encoders, object hooks, tag handling)
  is modelled from the source.
* The embedding models a single `Object` subclass at a time, described
  by a `ClassSpec` (its `_attrs` schema, `_dundername` tag and the
  `amethyst_*` configuration flags).
-/

namespace Amethyst

/-! ## Python values -/

mutual
/-- Embedded Python values: JSON primitives, lists, string-keyed dicts,
`set`/`frozenset` (their iteration order captured as a list), instances
of the modelled `Object` subclass (their `.dict` and `_mutable_` flag),
and `unencodable` stand-ins for arbitrary objects that neither the JSON
codec nor any registered encoder accepts. -/
inductive PyValue : Type
| pynone
| pybool (b : Bool)
| pyint (n : Int)
| pystr (s : String)
| pylist (xs : PyList)
| pydict (d : PyDict)
| pyset (xs : PyList)
| pyfrozenset (xs : PyList)
| pyobject (d : PyDict) (mtbl : Bool)
| unencodable (id : Nat)

/-- A Python list of embedded values. -/
inductive PyList : Type
| nil
| cons (hd : PyValue) (tl : PyList)

/-- A Python dict with string keys: insertion-ordered entries. -/
inductive PyDict : Type
| nil
| cons (k : String) (v : PyValue) (tl : PyDict)
end

deriving instance DecidableEq for PyValue, PyList, PyDict
deriving instance DecidableEq for Except

/-- Spine induction for `PyDict` (values are not recursed into). -/
def PyDict.spineInd {motive : PyDict → Prop} (h0 : motive .nil)
    (h1 : ∀ k v t, motive t → motive (.cons k v t)) : ∀ d, motive d
  | .nil => h0
  | .cons k v t => h1 k v t (PyDict.spineInd h0 h1 t)

/-- Spine induction for `PyList`. -/
def PyList.spineInd {motive : PyList → Prop} (h0 : motive .nil)
    (h1 : ∀ v t, motive t → motive (.cons v t)) : ∀ xs, motive xs
  | .nil => h0
  | .cons v t => h1 v t (PyList.spineInd h0 h1 t)

/-! ## Dict primitives (Python `dict` semantics) -/

/-- `d[k]` lookup: `some` value at the first (unique) matching key. -/
def dget (d : PyDict) (k : String) : Option PyValue :=
  match d with
  | .nil => Option.none
  | .cons k2 v t => if k2 = k then some v else dget t k

/-- `d[k] = v`: replace the value at an existing key in place, else
append the new entry at the end (Python dict insertion order). -/
def dset (d : PyDict) (k : String) (v : PyValue) : PyDict :=
  match d with
  | .nil => .cons k v .nil
  | .cons k2 v2 t => if k2 = k then .cons k2 v t else .cons k2 v2 (dset t k v)

/-- `d.pop(k, None)` effect on the dict: remove the entry at `k` (first
occurrence) if present. -/
def dpop (d : PyDict) (k : String) : PyDict :=
  match d with
  | .nil => .nil
  | .cons k2 v t => if k2 = k then t else .cons k2 v (dpop t k)

/-- `k in d`. -/
def dhas (d : PyDict) (k : String) : Bool :=
  (dget d k).isSome

/-- `len(d)`. -/
def dlen (d : PyDict) : Nat :=
  match d with
  | .nil => 0
  | .cons _ _ t => dlen t + 1

/-- `list(d.keys())`. -/
def dkeys (d : PyDict) : List String :=
  match d with
  | .nil => []
  | .cons k _ t => k :: dkeys t

/-- `d.update(inc)`: fold `dset` over the incoming entries. -/
def dupdate (d : PyDict) (inc : PyDict) : PyDict :=
  match inc with
  | .nil => d
  | .cons k v t => dupdate (dset d k v) t

/-- All entries satisfy a boolean predicate. -/
def dAllB (p : String → PyValue → Bool) (d : PyDict) : Bool :=
  match d with
  | .nil => true
  | .cons k v t => p k v && dAllB p t

/-- Python dict equality `a == b` restricted to our value model:
key-order-insensitive agreement of lookups. -/
def storeEqv (a b : PyDict) : Prop := ∀ k, dget a k = dget b k

/-! ### Dict lemmas -/

theorem dget_dset_self (d : PyDict) (k : String) (v : PyValue) :
    dget (dset d k v) k = some v := by
  induction d using PyDict.spineInd with
  | h0 => simp [dget, dset]
  | h1 k2 v2 t ih =>
    by_cases h : k2 = k
    · simp [dget, dset, h]
    · simp [dget, dset, h, ih]

theorem dget_dset_ne (d : PyDict) (k k2 : String) (v : PyValue) (h : k ≠ k2) :
    dget (dset d k v) k2 = dget d k2 := by
  induction d using PyDict.spineInd with
  | h0 => simp [dget, dset, h]
  | h1 k3 v3 t ih =>
    by_cases h3 : k3 = k
    · subst h3; simp [dget, dset, h]
    · simp [dget, dset, h3, ih]

theorem dget_dpop_ne (d : PyDict) (k k2 : String) (h : k ≠ k2) :
    dget (dpop d k) k2 = dget d k2 := by
  induction d using PyDict.spineInd with
  | h0 => simp [dget, dpop]
  | h1 k3 v3 t ih =>
    by_cases h3 : k3 = k
    · subst h3; simp [dget, dpop, h, ih]
    · simp [dget, dpop, h3, ih]

theorem dpop_of_not_has (d : PyDict) (k : String) (h : dhas d k = false) :
    dpop d k = d := by
  induction d using PyDict.spineInd with
  | h0 => rfl
  | h1 k2 v t ih =>
    by_cases h2 : k2 = k
    · subst h2; simp [dhas, dget] at h
    · simp [dhas, dget, h2] at h
      simp [dpop, h2, ih (by simp [dhas, h])]

theorem dpop_dset_of_not_has (d : PyDict) (k : String) (v : PyValue)
    (h : dhas d k = false) : dpop (dset d k v) k = d := by
  induction d using PyDict.spineInd with
  | h0 => simp [dset, dpop]
  | h1 k2 v2 t ih =>
    by_cases h2 : k2 = k
    · subst h2; simp [dhas, dget] at h
    · simp [dhas, dget, h2] at h
      simp [dset, dpop, h2, ih (by simp [dhas, h])]

theorem dAllB_dget (p : String → PyValue → Bool) (d : PyDict) (k : String)
    (v : PyValue) (hall : dAllB p d = true) (hget : dget d k = some v) :
    p k v = true := by
  induction d using PyDict.spineInd with
  | h0 => simp [dget] at hget
  | h1 k2 v2 t ih =>
    simp [dAllB] at hall
    by_cases h2 : k2 = k
    · subst h2
      simp [dget] at hget
      exact hget ▸ hall.1
    · simp [dget, h2] at hget
      exact ih hall.2 hget

/-! ## Exceptions -/

/-- The exceptions the modelled code can raise: Python `ValueError`,
`TypeError`, `KeyError`, `AttributeError`, and the library's
`AmethystException` with its subclasses `ImmutableObjectException` and
`DuplicateAttributeException`. -/
inductive PyErr : Type
| valueError (msg : String)
| typeError (msg : String)
| keyError (k : String)
| attributeError (msg : String)
| amethystException (msg : String)
| immutableObject (msg : String)
| duplicateAttribute (msg : String)
deriving DecidableEq

/-! ## `Attr`: validator algebra

From `class Attr` in `obj.py`.  A validator's `convert` is an arbitrary
callable; `isa` membership testing is abstracted as a predicate; the
`verify` callback's truthiness test as a boolean predicate.  `default`
values (literal or the value a zero-argument producer returns) and the
value a `builder` returns are represented directly; the `doc`/`fget`/
`fset`/`fdel` customization fields, which no claim touches, are not
modelled (all claims concern the default generated property). -/
structure Attr : Type where
  convert : Option (PyValue → Except PyErr PyValue)
  isa : Option (PyValue → Bool)
  verify : Option (PyValue → Bool)
  default : Option PyValue
  builder : Option PyValue
  OVERRIDE : Bool

/-- `Attr()` with no arguments. -/
def attrPlain : Attr :=
  { convert := Option.none, isa := Option.none, verify := Option.none,
    default := Option.none, builder := Option.none, OVERRIDE := false }

/-- `Attr.__call__(value, key)`: convert, then `isa` check, then
`verify` check (`key` only feeds error messages and is dropped). -/
def attrCall (a : Attr) (v : PyValue) : Except PyErr PyValue := do
  let v ← match a.convert with
    | some f => f v
    | Option.none => pure v
  match a.isa with
    | some p =>
      if p v then pure () else throw (.valueError "is not an instance")
    | Option.none => pure ()
  match a.verify with
    | some p =>
      if p v then pure ()
      else throw (.valueError "does not satisfy verification callback")
    | Option.none => pure ()
  pure v

/-- Python numeric view used by the order comparisons: `bool` is an
`int` subclass in Python, so it compares as 0/1; other embedded values
do not support `<=` against a number and raise `TypeError`. -/
def pyAsNum : PyValue → Option Int
  | .pyint n => some n
  | .pybool b => some (if b then 1 else 0)
  | _ => Option.none

/-- `Attr.__ge__(self, other)` for a numeric bound, which is what the
Python expression `bound <= attr` evaluates (reflected operator): a new
`Attr` whose convert applies `self` then requires `val >= other`. -/
def attrGE (a : Attr) (other : Int) : Attr :=
  { convert := some (fun v => do
      let val ← attrCall a v
      match pyAsNum val with
      | some x =>
        if x ≥ other then pure val else throw (.valueError "Invalid Value")
      | Option.none => throw (.typeError "not supported between instances")),
    isa := Option.none, verify := Option.none,
    default := Option.none, builder := Option.none, OVERRIDE := a.OVERRIDE }

/-- `Attr.__le__(self, other)` for a numeric bound (`attr <= bound`):
apply `self` then require `val <= other`. -/
def attrLE (a : Attr) (other : Int) : Attr :=
  { convert := some (fun v => do
      let val ← attrCall a v
      match pyAsNum val with
      | some x =>
        if x ≤ other then pure val else throw (.valueError "Invalid Value")
      | Option.none => throw (.typeError "not supported between instances")),
    isa := Option.none, verify := Option.none,
    default := Option.none, builder := Option.none, OVERRIDE := a.OVERRIDE }

/-! ### The builtin `int` converter -/

/-- Accumulate decimal digits; any non-digit character fails. -/
def parseDigitsAux (acc : Nat) : List Char → Option Nat
  | [] => some acc
  | c :: cs =>
    if c.isDigit then parseDigitsAux (acc * 10 + (c.toNat - 48)) cs
    else Option.none

/-- Parse a nonempty all-digit string. -/
def parseDigits (cs : List Char) : Option Nat :=
  match cs with
  | [] => Option.none
  | _ => parseDigitsAux 0 cs

/-- Python `int(str)` parsing: optional surrounding whitespace, one
optional sign, then decimal digits (digit-group underscores are not
modelled; no claim exercises them). -/
def pyParseInt (s : String) : Option Int :=
  let cs := (s.toList.dropWhile Char.isWhitespace).reverse
  let cs := (cs.dropWhile Char.isWhitespace).reverse
  match cs with
  | '+' :: rest => (parseDigits rest).map Int.ofNat
  | '-' :: rest => (parseDigits rest).map (fun n => -(Int.ofNat n))
  | rest => (parseDigits rest).map Int.ofNat

/-- The Python builtin `int` applied to an embedded value: ints pass
through, bools are 0/1, strings are parsed strictly (`ValueError` on
failure), anything else raises `TypeError`.  (Floats, which truncate,
are outside the embedded value model; no claim uses them.) -/
def pyIntFn (v : PyValue) : Except PyErr PyValue :=
  match v with
  | .pyint n => .ok (.pyint n)
  | .pybool b => .ok (.pyint (if b then 1 else 0))
  | .pystr s =>
    match pyParseInt s with
    | some n => .ok (.pyint n)
    | Option.none => .error (.valueError "invalid literal for int()")
  | _ => .error (.typeError "int() argument")

/-- `Attr(int)`. -/
def attrInt : Attr :=
  { attrPlain with convert := some pyIntFn }

/-- The composed validator `(0 <= Attr(int)) <= 200` from the spec's
boundary scenario (`Attr.__ge__` then `Attr.__le__`). -/
def attr0to200 : Attr := attrLE (attrGE attrInt 0) 200

/-! ## The metaclass duplicate-attribute check

From `AttrsMetaclass.__new__`: for each `Attr` declared directly in the
class body, raise `DuplicateAttributeException` when the attr is not
`OVERRIDE` and `hasattr(new_cls, name)` holds.  `hasattr` sees *every*
attribute the partially built class exposes — ancestor `Attr`
properties as well as ordinary methods and class attributes — which the
parameter `classAttrNames` lists. -/
def attrsMetaNew (classAttrNames : List String) (decls : List (String × Attr)) :
    Except PyErr Unit :=
  match decls with
  | [] => .ok ()
  | (name, a) :: rest =>
    if a.OVERRIDE = false ∧ name ∈ classAttrNames then
      .error (.duplicateAttribute name)
    else attrsMetaNew classAttrNames rest

/-- The attribute names every subclass of `Object` inherits from
`Object`/`BaseObject` themselves (methods and `amethyst_*`/bookkeeping
class attributes), hence visible to `hasattr` during the duplicate
check even when no ancestor declares any field. -/
def objectBaseAttrNames : List String :=
  ["assert_mutable", "is_mutable", "make_mutable", "make_immutable",
   "get", "set", "setdefault", "pop", "update",
   "validate_data", "validate_update", "attr_value_ok", "load_data",
   "JSONEncoder", "JSONObjectHook", "toJSON", "newFromJSON", "fromJSON",
   "amethyst_register_type", "amethyst_includeclass",
   "amethyst_verifyclass", "amethyst_import_strategy",
   "amethyst_classhint_style", "_attrs", "_jsonencoders", "_jsonhooks",
   "_dundername"]

/-! ## Records -/

/-- An `Object` instance: its `.dict` backing store and `_mutable_`
flag. -/
structure RecordState : Type where
  dict : PyDict
  mutable : Bool
deriving DecidableEq

/-- A modelled `Object` subclass: its `_attrs` schema (name/`Attr`
pairs in declaration order), `_dundername` tag, and the `amethyst_*`
configuration flags with their source defaults. -/
structure ClassSpec : Type where
  attrs : List (String × Attr)
  dundername : String
  registerType : Bool := true
  includeclass : Bool := true
  verifyclass : Bool := true
  importStrategy : String := "strict"
  classhintStyle : String := "flat"

/-- `self._attrs.get(key)`. -/
def agetAttr (attrs : List (String × Attr)) (k : String) : Option Attr :=
  match attrs with
  | [] => Option.none
  | (k2, a) :: t => if k2 = k then some a else agetAttr t k

/-- The default-seeding loop of `Object.__init__`: for each declared
attr whose `default` is not `None` and whose key is absent, store the
default. -/
def seedDefaults (attrs : List (String × Attr)) (d : PyDict) : PyDict :=
  match attrs with
  | [] => d
  | (name, a) :: rest =>
    seedDefaults rest
      (match a.default with
       | some dv => if dhas d name then d else dset d name dv
       | Option.none => d)

/-- `Object.__init__(**kwargs)` (keyword form): `self.dict = kwargs`,
mutable by default, then seed eager defaults.  Builders are never
consulted at construction. -/
def objectInit (cls : ClassSpec) (kwargs : PyDict) : RecordState :=
  { dict := seedDefaults cls.attrs kwargs, mutable := true }

/-- The `ImmutableObjectException` that `assert_mutable` raises. -/
def immutableErr : PyErr :=
  .immutableObject "May not modify, object is immutable"

/-! ## Validation (`validate_data` / `validate_update`) -/

/-- The schema loop of `validate_data`: iterate `self._attrs` in order;
a declared key present in the input is validated (`Attr.__call__`,
errors propagate immediately), an absent declared key with a default
gets the default. -/
def vdLoop (attrs : List (String × Attr)) (d : PyDict) (data : PyDict) :
    Except PyErr PyDict :=
  match attrs with
  | [] => .ok data
  | (name, a) :: rest =>
    match dget d name with
    | some v =>
      match attrCall a v with
      | .ok cv => vdLoop rest d (dset data name cv)
      | .error e => .error e
    | Option.none =>
      match a.default with
      | some dv => vdLoop rest d (dset data name dv)
      | Option.none => vdLoop rest d data

/-- The `keys` set left over in `validate_data` under `strict`:
input keys matching no declared attr. -/
def undeclaredKeys (attrs : List (String × Attr)) (d : PyDict) : List String :=
  (dkeys d).filter (fun k => (agetAttr attrs k).isNone)

/-- `Object.validate_data(d, import_strategy)`: returns a brand-new
canonical dict (never touches `self.dict`).  Under `sloppy` the result
starts as a copy of the input, otherwise empty; after the schema loop,
`strict` rejects any input key that matched no declared attr. -/
def validate_data (cls : ClassSpec) (d : PyDict) (importStrategy : Option String) :
    Except PyErr PyDict :=
  let strategy := importStrategy.getD cls.importStrategy
  let init := if strategy = "sloppy" then d else .nil
  match vdLoop cls.attrs d init with
  | .error e => .error e
  | .ok data =>
    if strategy = "strict" ∧ undeclaredKeys cls.attrs d ≠ [] then
      .error (.valueError "keys not permitted")
    else .ok data

/-- The input loop of `validate_update`: iterate the input entries; an
undeclared key raises under `strict` and is skipped otherwise; a
declared key is validated into the result. -/
def vuLoop (attrs : List (String × Attr)) (strategy : String) (ents : PyDict)
    (data : PyDict) : Except PyErr PyDict :=
  match ents with
  | .nil => .ok data
  | .cons k v t =>
    match agetAttr attrs k with
    | Option.none =>
      if strategy = "strict" then .error (.valueError "key not permitted")
      else vuLoop attrs strategy t data
    | some a =>
      match attrCall a v with
      | .ok cv => vuLoop attrs strategy t (dset data k cv)
      | .error e => .error e

/-- `Object.validate_update(d, import_strategy)`: like `validate_data`
but driven by the input keys only (no default back-filling). -/
def validate_update (cls : ClassSpec) (d : PyDict) (importStrategy : Option String) :
    Except PyErr PyDict :=
  let strategy := importStrategy.getD cls.importStrategy
  let init := if strategy = "sloppy" then d else .nil
  vuLoop cls.attrs strategy d init

/-! ## Record operations

Each mutating operation returns the (possibly updated) state together
with the call's outcome; `assert_mutable` failures leave the state as
it was, because the source raises before touching `self.dict`. -/

/-- `Object.get(key, dflt)`: never validates, never raises. -/
def obj_get (s : RecordState) (key : String) (dflt : PyValue) : PyValue :=
  (dget s.dict key).getD dflt

/-- `Object.__getitem__`: `KeyError` when absent. -/
def obj_getitem (s : RecordState) (key : String) : Except PyErr PyValue :=
  match dget s.dict key with
  | some v => .ok v
  | Option.none => .error (.keyError key)

/-- `Object.__len__`. -/
def obj_len (s : RecordState) : Nat := dlen s.dict

/-- `Object.__contains__`. -/
def obj_contains (s : RecordState) (key : String) : Bool := dhas s.dict key

/-- `Object.__iter__` (the keys, in order). -/
def obj_iter (s : RecordState) : List String := dkeys s.dict

/-- `Object.__setitem__`: `assert_mutable`, then raw store (no
validation). -/
def obj_setitem (s : RecordState) (k : String) (v : PyValue) :
    RecordState × Except PyErr Unit :=
  if s.mutable then ({ s with dict := dset s.dict k v }, .ok ())
  else (s, .error immutableErr)

/-- `Object.__delitem__`: `assert_mutable`, then `del self.dict[key]`
(`KeyError` when absent). -/
def obj_delitem (s : RecordState) (k : String) :
    RecordState × Except PyErr Unit :=
  if s.mutable then
    if dhas s.dict k then ({ s with dict := dpop s.dict k }, .ok ())
    else (s, .error (.keyError k))
  else (s, .error immutableErr)

/-- `Object.set(*args, **kwargs)`: `assert_mutable`; positional
key/value pairs overwrite same-named keyword pairs; the merged dict is
passed through `validate_update` and, on success, merged into
`self.dict`. -/
def obj_set (cls : ClassSpec) (s : RecordState) (args : List (String × PyValue))
    (kwargs : PyDict) : RecordState × Except PyErr Unit :=
  if s.mutable then
    let merged := args.foldl (fun acc kv => dset acc kv.1 kv.2) kwargs
    match validate_update cls merged Option.none with
    | .ok upd => ({ s with dict := dupdate s.dict upd }, .ok ())
    | .error e => (s, .error e)
  else (s, .error immutableErr)

/-- `Object.setdefault(key, value)`: `assert_mutable`; if the key is
present return the stored value without validating the proposal, else
`set` it and return the stored result. -/
def obj_setdefault (cls : ClassSpec) (s : RecordState) (k : String) (v : PyValue) :
    RecordState × Except PyErr PyValue :=
  if s.mutable then
    if dhas s.dict k then
      (s, match dget s.dict k with
          | some x => .ok x
          | Option.none => .error (.keyError k))
    else
      match obj_set cls s [(k, v)] .nil with
      | (s2, .ok _) =>
        (s2, match dget s2.dict k with
             | some x => .ok x
             | Option.none => .error (.keyError k))
      | (s2, .error e) => (s2, .error e)
  else (s, .error immutableErr)

/-- `Object.pop(key, dflt)`: `assert_mutable`, then `dict.pop` with a
default (never a `KeyError`). -/
def obj_pop (s : RecordState) (k : String) (dflt : PyValue) :
    RecordState × Except PyErr PyValue :=
  if s.mutable then
    match dget s.dict k with
    | some v => ({ s with dict := dpop s.dict k }, .ok v)
    | Option.none => (s, .ok dflt)
  else (s, .error immutableErr)

/-- `Object.update(*args, **kwargs)`: `assert_mutable`, then bulk merge
each mapping and the keyword pairs into `self.dict` without any
validation. -/
def obj_update (s : RecordState) (ds : List PyDict) (kwargs : PyDict) :
    RecordState × Except PyErr Unit :=
  if s.mutable then
    ({ s with dict := dupdate (ds.foldl dupdate s.dict) kwargs }, .ok ())
  else (s, .error immutableErr)

/-! ## Generated property accessors (`Attr.build_property`) -/

/-- The generated `fget`: return the stored value; on `KeyError`, cache
and return the eager default if one exists (defaults run before
builders), else cache and return the builder's value, else return
`None`.  The third component counts builder invocations made by this
call.  `fget` never consults `assert_mutable`. -/
def attr_fget (a : Attr) (name : String) (s : RecordState) :
    RecordState × PyValue × Nat :=
  match dget s.dict name with
  | some v => (s, v, 0)
  | Option.none =>
    match a.default with
    | some dv => ({ s with dict := dset s.dict name dv }, dv, 0)
    | Option.none =>
      match a.builder with
      | some bv => ({ s with dict := dset s.dict name bv }, bv, 1)
      | Option.none => (s, .pynone, 0)

/-- The generated `fset`: `assert_mutable`, then raw store — by design
no validation happens on attribute assignment. -/
def attr_fset (s : RecordState) (name : String) (v : PyValue) :
    RecordState × Except PyErr Unit :=
  if s.mutable then ({ s with dict := dset s.dict name v }, .ok ())
  else (s, .error immutableErr)

/-- The generated `fdel`: `assert_mutable`, then `del self.dict[name]`. -/
def attr_fdel (s : RecordState) (name : String) :
    RecordState × Except PyErr Unit :=
  if s.mutable then
    if dhas s.dict name then ({ s with dict := dpop s.dict name }, .ok ())
    else (s, .error (.keyError name))
  else (s, .error immutableErr)

/-! ## `load_data` -/

/-- The flat tail of `load_data` once `self` is known mutable and the
working dict and effective `verifyclass` are fixed: verify the
`"__class__"` tag when requested (`data.get("__class__")` must equal
the dunder name, else `ValueError` — reached before any mutation), pop
the tag key out of the working dict, run `validate_data`, and replace
`self.dict` wholesale on success.  The second component is the final
contents of the working dict (the source mutates it in place). -/
def loadFlat (cls : ClassSpec) (s : RecordState) (d : PyDict) (vc : Bool)
    (importStrategy : Option String) :
    RecordState × Except PyErr Unit × PyDict :=
  if vc ∧ dget d "__class__" ≠ some (.pystr cls.dundername) then
    (s, .error (.valueError "got another object, but expected this class"), d)
  else
    let d2 := dpop d "__class__"
    match validate_data cls d2 importStrategy with
    | .ok nd => ({ s with dict := nd }, .ok (), d2)
    | .error e => (s, .error e, d2)

/-- `Object.load_data(data, import_strategy, verifyclass)`:
`assert_mutable`; an instance of the class passes its own `.dict` in
with verification bypassed; a single-key dict wrapped under the dunder
name is unwrapped (its payload must itself be a dict) with verification
bypassed; any other non-dict raises.  The second component is the final
contents of the caller's `data` argument — the source mutates the dict
it was handed (popping `"__class__"`, possibly inside the single-key
wrapper or inside the passed instance's store). -/
def load_data (cls : ClassSpec) (s : RecordState) (data : PyValue)
    (importStrategy : Option String) (verifyclass : Option Bool) :
    RecordState × Except PyErr Unit × PyValue :=
  if s.mutable then
    let vc := verifyclass.getD cls.verifyclass
    match data with
    | .pyobject d m =>
      let r := loadFlat cls s d false importStrategy
      (r.1, r.2.1, .pyobject r.2.2 m)
    | .pydict (.cons k (PyValue.pydict inner) PyDict.nil) =>
      if k = cls.dundername then
        let r := loadFlat cls s inner false importStrategy
        (r.1, r.2.1, .pydict (.cons k (.pydict r.2.2) .nil))
      else
        let r := loadFlat cls s (.cons k (.pydict inner) .nil) vc importStrategy
        (r.1, r.2.1, .pydict r.2.2)
    | .pydict (.cons k v PyDict.nil) =>
      if k = cls.dundername then
        (s, .error (.valueError "expected dictionary object"), data)
      else
        let r := loadFlat cls s (.cons k v .nil) vc importStrategy
        (r.1, r.2.1, .pydict r.2.2)
    | .pydict d =>
      let r := loadFlat cls s d vc importStrategy
      (r.1, r.2.1, .pydict r.2.2)
    | _ => (s, .error (.valueError "expected dictionary object"), data)
  else (s, .error immutableErr, data)

/-! ## Encoding (`toJSON`)

`json.dumps(..., default=self.JSONEncoder)` is modelled as a
normalization of the value tree into the exact structure the emitted
JSON text denotes: primitives/lists/dicts pass through recursively;
anything else goes through `JSONEncoder`, which consults the class's
local `_jsonencoders` (empty for the modelled class) and then the
global registry — `set`/`frozenset` wrap as their reserved single-key
dicts, a registered instance of the modelled class wraps as
`{dundername: dict}`, and an unknown object raises `TypeError`. -/

mutual
def jsonNormalize (cls : ClassSpec) : PyValue → Except PyErr PyValue
  | .pynone => .ok .pynone
  | .pybool b => .ok (.pybool b)
  | .pyint n => .ok (.pyint n)
  | .pystr s => .ok (.pystr s)
  | .pylist xs => do .ok (.pylist (← jsonNormalizeList cls xs))
  | .pydict d => do .ok (.pydict (← jsonNormalizeDict cls d))
  | .pyset xs => do
    .ok (.pydict (.cons "__set__" (.pylist (← jsonNormalizeList cls xs)) .nil))
  | .pyfrozenset xs => do
    .ok (.pydict (.cons "__frozenset__" (.pylist (← jsonNormalizeList cls xs)) .nil))
  | .pyobject d _ =>
    if cls.registerType then do
      .ok (.pydict (.cons cls.dundername (.pydict (← jsonNormalizeDict cls d)) .nil))
    else .error (.typeError "cannot encode")
  | .unencodable _ => .error (.typeError "cannot encode")

def jsonNormalizeList (cls : ClassSpec) : PyList → Except PyErr PyList
  | .nil => .ok .nil
  | .cons h t => do .ok (.cons (← jsonNormalize cls h) (← jsonNormalizeList cls t))

def jsonNormalizeDict (cls : ClassSpec) : PyDict → Except PyErr PyDict
  | .nil => .ok .nil
  | .cons k v t => do .ok (.cons k (← jsonNormalize cls v) (← jsonNormalizeDict cls t))
end

/-- `Object.toJSON(includeclass, style)`: resolve the per-call
overrides against the class flags; in `flat` style inject the
`"__class__": dundername` entry into `self.dict` itself for the dump
and pop it in the `finally` block (so the pop runs whether or not the
dump succeeded); in `single-key` style wrap `self.dict` without
touching it; an unknown style raises `AmethystException` before any
mutation.  Returns the dump outcome and the final record state. -/
def toJSON (cls : ClassSpec) (s : RecordState) (includeclass : Option Bool)
    (style : Option String) : (Except PyErr PyValue) × RecordState :=
  let ic := includeclass.getD cls.includeclass
  let st := style.getD cls.classhintStyle
  if ic then
    if st = "flat" then
      let d2 := dset s.dict "__class__" (.pystr cls.dundername)
      (jsonNormalize cls (.pydict d2), { s with dict := dpop d2 "__class__" })
    else if st = "single-key" then
      (jsonNormalize cls (.pydict (.cons cls.dundername (.pydict s.dict) .nil)), s)
    else
      (.error (.amethystException "Unknown class style"), s)
  else
    (jsonNormalize cls (.pydict s.dict), s)

/-! ## Decoding (`fromJSON`)

`json.loads(..., object_hook=self.JSONObjectHook)` is modelled as a
bottom-up walk of the parsed tree that offers every dict to
`JSONObjectHook`: a single-key dict whose key is in the class's local
`_jsonhooks` (empty for the modelled class) or the global registry is
replaced by the hook's result; everything else passes through. -/

/-- Membership in a `PyList` under the embedded equality. -/
def pyListMem (x : PyValue) : PyList → Bool
  | .nil => false
  | .cons h t => x = h || pyListMem x t

/-- Deduplicate, keeping first occurrences: the determinized iteration
order of a freshly built Python `set` (hash order is abstracted as
encounter order; Python's `==`-collapsing of equal numerics is not
modelled — no claim exercises it). -/
def pyDedupe : PyList → PyList
  | .nil => .nil
  | .cons h t => if pyListMem h t then pyDedupe t else .cons h (pyDedupe t)

/-- The chars of a string, as 1-char Python strings. -/
def strElems (s : String) : PyList :=
  s.toList.foldr (fun c acc => .cons (.pystr (String.singleton c)) acc) .nil

/-- The keys of a dict, as Python strings. -/
def dictKeyElems (d : PyDict) : PyList :=
  match d with
  | .nil => .nil
  | .cons k _ t => .cons (.pystr k) (dictKeyElems t)

/-- The iterable view Python's `set(...)`/`frozenset(...)` constructors
take of an embedded value: lists and sets iterate their elements,
strings their characters, dicts and `Object`s their keys; anything else
is not iterable (`TypeError`). -/
def pyIterElems : PyValue → Except PyErr PyList
  | .pylist xs => .ok xs
  | .pyset xs => .ok xs
  | .pyfrozenset xs => .ok xs
  | .pystr s => .ok (strElems s)
  | .pydict d => .ok (dictKeyElems d)
  | .pyobject d _ => .ok (dictKeyElems d)
  | _ => .error (.typeError "is not iterable")

/-- The registered decode hook for `"__set__"`: the builtin `set`. -/
def setHookFn (v : PyValue) : Except PyErr PyValue := do
  .ok (.pyset (pyDedupe (← pyIterElems v)))

/-- The registered decode hook for `"__frozenset__"`: `frozenset`. -/
def frozensetHookFn (v : PyValue) : Except PyErr PyValue := do
  .ok (.pyfrozenset (pyDedupe (← pyIterElems v)))

/-- `Object.JSONObjectHook(obj)`: a single-key dict whose key names a
hook is replaced by the hook applied to the inner value.  The global
registry holds `"__set__"`, `"__frozenset__"` and — when the class was
registered by the metaclass — the class's own dunder tag, whose decode
is `new_cls().load_data(inner, verifyclass=False)`. -/
def applyHook (cls : ClassSpec) (v : PyValue) : Except PyErr PyValue :=
  match v with
  | .pydict (.cons k inner .nil) =>
    if k = "__set__" then setHookFn inner
    else if k = "__frozenset__" then frozensetHookFn inner
    else if cls.registerType ∧ k = cls.dundername then
      match load_data cls (objectInit cls .nil) inner Option.none (some false) with
      | (r, .ok _, _) => .ok (.pyobject r.dict r.mutable)
      | (_, .error e, _) => .error e
    else .ok v
  | _ => .ok v

mutual
/-- The object-hook walk `json.loads` performs: hooks run bottom-up, on
every decoded JSON object after its members were decoded (and possibly
replaced by hook results). -/
def hookWalk (cls : ClassSpec) : PyValue → Except PyErr PyValue
  | .pydict d => do applyHook cls (.pydict (← hookWalkDict cls d))
  | .pylist xs => do .ok (.pylist (← hookWalkList cls xs))
  | v => .ok v

def hookWalkList (cls : ClassSpec) : PyList → Except PyErr PyList
  | .nil => .ok .nil
  | .cons h t => do .ok (.cons (← hookWalk cls h) (← hookWalkList cls t))

def hookWalkDict (cls : ClassSpec) : PyDict → Except PyErr PyDict
  | .nil => .ok .nil
  | .cons k v t => do .ok (.cons k (← hookWalk cls v) (← hookWalkDict cls t))
end

/-- `Object.fromJSON(data, ...)`: decode the JSON text (modelled by its
tree) with the object hook, then `load_data` the result.  Returns the
final record state (untouched when decoding raised) and the outcome. -/
def fromJSON (cls : ClassSpec) (s : RecordState) (tree : PyValue)
    (importStrategy : Option String) (verifyclass : Option Bool) :
    RecordState × Except PyErr Unit :=
  match hookWalk cls tree with
  | .ok v =>
    let r := load_data cls s v importStrategy verifyclass
    (r.1, r.2.1)
  | .error e => (s, .error e)

/-- `Object.newFromJSON(data, ...)`: decode into a fresh instance
(mutable by default, so no mutability juggling is needed). -/
def newFromJSON (cls : ClassSpec) (tree : PyValue)
    (importStrategy : Option String) (verifyclass : Option Bool) :
    RecordState × Except PyErr Unit :=
  fromJSON cls (objectInit cls .nil) tree importStrategy verifyclass

/-- The spec's `decode(encode(r))` pipeline: `toJSON` under the given
style (class tag included), then `newFromJSON` of the emitted tree with
the class defaults. -/
def decodeEncode (cls : ClassSpec) (r : RecordState) (style : String) :
    Except PyErr RecordState :=
  match (toJSON cls r Option.none (some style)).1 with
  | .ok tree =>
    match newFromJSON cls tree Option.none Option.none with
    | (r2, .ok _) => .ok r2
    | (_, .error e) => .error e
  | .error e => .error e

/-! ## Additional dict lemmas -/

/-- Key-only universal predicate over a dict. -/
def dAllBKeys (p : String → Bool) (d : PyDict) : Bool :=
  dAllB (fun k _ => p k) d

theorem dget_none_of_dAllBKeys (p : String → Bool) (d : PyDict) (k : String)
    (hall : dAllBKeys p d = true) (hk : p k = false) :
    dget d k = Option.none := by
  induction d using PyDict.spineInd with
  | h0 => rfl
  | h1 k2 v2 t ih =>
    simp [dAllBKeys, dAllB] at hall
    by_cases h2 : k2 = k
    · subst h2; rw [hall.1] at hk; cases hk
    · simpa [dget, h2] using ih (by simpa [dAllBKeys] using hall.2)

theorem dAllB_dset (p : String → PyValue → Bool) (d : PyDict) (k : String)
    (v : PyValue) (hall : dAllB p d = true) (hkv : p k v = true) :
    dAllB p (dset d k v) = true := by
  induction d using PyDict.spineInd with
  | h0 => simp [dset, dAllB, hkv]
  | h1 k2 v2 t ih =>
    simp [dAllB] at hall
    by_cases h2 : k2 = k
    · subst h2; simp [dset, dAllB, hall.1, hall.2, hkv]
    · simp [dset, dAllB, h2, hall.1, ih hall.2]

/-! ## Claim theorems -/

/-- C4: the composed validator `(0 <= Attr(int)) <= 200` maps `150 ↦
150`, `200 ↦ 200`, `0 ↦ 0`, and raises `ValueError` on `-5` and on
`201`. -/
theorem c4_boundary_validator :
    attrCall attr0to200 (.pyint 150) = .ok (.pyint 150) ∧
    attrCall attr0to200 (.pyint 200) = .ok (.pyint 200) ∧
    attrCall attr0to200 (.pyint 0) = .ok (.pyint 0) ∧
    attrCall attr0to200 (.pyint (-5)) = .error (.valueError "Invalid Value") ∧
    attrCall attr0to200 (.pyint 201) = .error (.valueError "Invalid Value") := by
  exact ⟨by decide, by decide, by decide, by decide, by decide⟩

/-- C8 counterexample: a declared field with neither default nor
builder, read through its generated accessor while absent from the
store, returns the value `None` with the store untouched — it does not
raise any undefined-attribute error, contradicting the claim (the
test-suite asserts this very behavior: `assertIsNone(obj.baz)`). -/
theorem c8_counterexample :
    attr_fget attrPlain "baz" { dict := .nil, mutable := true } =
      ({ dict := .nil, mutable := true }, PyValue.pynone, 0) := by decide

/-- C8 (amended): reading a declared field whose key is absent and
which has neither an eager default nor a lazy builder yields the value
`None` (store unchanged, no builder invocation), not an error. -/
theorem c8_absent_field_reads_none (a : Attr) (name : String) (s : RecordState)
    (habs : dget s.dict name = Option.none) (hd : a.default = Option.none)
    (hb : a.builder = Option.none) :
    attr_fget a name s = (s, PyValue.pynone, 0) := by
  simp [attr_fget, habs, hd, hb]

/-- C8 witness: the amended theorem applied to the concrete
no-default/no-builder field of an empty record. -/
theorem c8_witness :
    attr_fget attrPlain "baz" { dict := PyDict.nil, mutable := true } =
      ({ dict := PyDict.nil, mutable := true }, PyValue.pynone, 0) :=
  c8_absent_field_reads_none attrPlain "baz"
    { dict := PyDict.nil, mutable := true } (by decide) (by decide) (by decide)

/-- C7 counterexample: with no ancestor schema field at all (`[]`) but
the attribute names every `Object` subclass inherits (its methods,
among them `get`), declaring a field named `"get"` without `OVERRIDE`
raises `DuplicateAttributeException` — refuting "a directly declared
field whose name does not collide with any ancestor field does not
cause this error" (`hasattr` sees methods, not just fields). -/
theorem c7_counterexample :
    attrsMetaNew (([] : List String) ++ objectBaseAttrNames)
      [("get", attrPlain)] = .error (.duplicateAttribute "get") ∧
    "get" ∉ ([] : List String) := by
  exact ⟨by decide, by decide⟩

/-- C7 (amended): type definition fails with a duplicate-attribute
error exactly when some directly declared, non-override field name
collides with *any* attribute the class already exposes — ancestor
schema fields or any other inherited attribute (methods, class
attributes); absent any such collision the definition succeeds. -/
theorem c7_duplicate_check (fields others : List String)
    (decls : List (String × Attr)) :
    attrsMetaNew (fields ++ others) decls = .ok () ↔
      ∀ na ∈ decls, na.2.OVERRIDE = true ∨ (na.1 ∉ fields ∧ na.1 ∉ others) := by
  induction decls with
  | nil => simp [attrsMetaNew]
  | cons hd tl ih =>
    obtain ⟨name, a⟩ := hd
    by_cases hov : a.OVERRIDE = false ∧ name ∈ fields ++ others
    · simp only [attrsMetaNew, if_pos hov]
      constructor
      · intro h; cases h
      · intro h
        rcases h (name, a) (by simp) with h1 | h1
        · rw [h1] at hov; cases hov.1
        · rcases List.mem_append.mp hov.2 with hm | hm
          · exact absurd hm h1.1
          · exact absurd hm h1.2
    · simp only [attrsMetaNew, if_neg hov]
      rw [ih]
      constructor
      · intro h
        intro na hna
        rcases List.mem_cons.mp hna with rfl | hna
        · rcases Decidable.not_and_iff_or_not.mp hov with h1 | h1
          · left; simpa using h1
          · right
            rw [List.mem_append] at h1
            push_neg at h1
            exact h1
        · exact h na hna
      · intro h na hna
        exact h na (List.mem_cons_of_mem _ hna)

/-- A concrete example class shared by the witnesses: one declared
`Attr(int)` field `foo`, source-default flags. -/
def exCls : ClassSpec :=
  { attrs := [("foo", attrInt)], dundername := "__tests.MyObject__" }

/-- C3: on a frozen record every write path (`__setitem__`,
`__delitem__`, `set`, `setdefault`, `pop`, `update`, `load_data`, the
generated `fset`/`fdel`) raises `ImmutableObjectException` leaving the
record untouched (and `load_data` does not even mutate its argument),
while every read path (`get`, `__getitem__`, the generated `fget`,
`__contains__`, `__len__`, `__iter__`) still succeeds and reports the
previously stored values. -/
theorem c3_immutable_record (cls : ClassSpec) (s : RecordState)
    (hmut : s.mutable = false) (k : String) (v dflt w : PyValue) (a : Attr)
    (args : List (String × PyValue)) (kwargs : PyDict) (ds : List PyDict)
    (data : PyValue) (strat : Option String) (vc : Option Bool)
    (hv : dget s.dict k = some v) :
    obj_setitem s k w = (s, .error immutableErr) ∧
    obj_delitem s k = (s, .error immutableErr) ∧
    obj_set cls s args kwargs = (s, .error immutableErr) ∧
    obj_setdefault cls s k w = (s, .error immutableErr) ∧
    obj_pop s k dflt = (s, .error immutableErr) ∧
    obj_update s ds kwargs = (s, .error immutableErr) ∧
    load_data cls s data strat vc = (s, .error immutableErr, data) ∧
    attr_fset s k w = (s, .error immutableErr) ∧
    attr_fdel s k = (s, .error immutableErr) ∧
    obj_get s k dflt = v ∧
    obj_getitem s k = .ok v ∧
    attr_fget a k s = (s, v, 0) ∧
    obj_contains s k = true ∧
    obj_len s = dlen s.dict ∧
    obj_iter s = dkeys s.dict := by
  refine ⟨?_, ?_, ?_, ?_, ?_, ?_, ?_, ?_, ?_, ?_, ?_, ?_, ?_, rfl, rfl⟩
  · simp [obj_setitem, hmut]
  · simp [obj_delitem, hmut]
  · simp [obj_set, hmut]
  · simp [obj_setdefault, hmut]
  · simp [obj_pop, hmut]
  · simp [obj_update, hmut]
  · simp [load_data, hmut]
  · simp [attr_fset, hmut]
  · simp [attr_fdel, hmut]
  · simp [obj_get, hv]
  · simp [obj_getitem, hv]
  · simp [attr_fget, hv]
  · simp [obj_contains, dhas, hv]

/-- C3 witness: the frozen record `{"test": 23}` rejects a raw item
write. -/
theorem c3_witness :
    obj_setitem { dict := .cons "test" (.pyint 23) .nil, mutable := false }
      "test" (.pyint 0) =
    ({ dict := .cons "test" (.pyint 23) .nil, mutable := false },
      .error immutableErr) :=
  (c3_immutable_record exCls
    { dict := .cons "test" (.pyint 23) .nil, mutable := false } (by decide)
    "test" (.pyint 23) .pynone (.pyint 0) attrPlain [] .nil [] .pynone
    Option.none Option.none (by decide)).1

/-- C9 counterexample: on a record whose store already holds a
`"__class__"` entry, flat-style `toJSON` overwrites it for the dump and
then pops it in the `finally` block, so the store after the call lacks
its original `"__class__"` entry: it is not restored to its prior
contents, refuting the claim's universal restoration. -/
theorem c9_counterexample :
    (toJSON exCls
      { dict := .cons "__class__" (.pystr "x") (.cons "foo" (.pyint 5) .nil),
        mutable := true } Option.none (some "flat")).2 =
      { dict := .cons "foo" (.pyint 5) .nil, mutable := true } ∧
    ¬ storeEqv (.cons "foo" (.pyint 5) .nil)
        (.cons "__class__" (.pystr "x") (.cons "foo" (.pyint 5) .nil)) := by
  refine ⟨by decide, fun h => absurd (h "__class__") (by decide)⟩

/-- C9 (amended): provided the store holds no `"__class__"` entry of
its own, a flat-style `toJSON` restores the store exactly (the
`finally` pop undoes the temporary injection, with no assumption that
the dump succeeded); single-key `toJSON` never mutates the record at
all, without even that proviso. -/
theorem c9_tojson_frame (cls : ClassSpec) (s : RecordState)
    (h : dhas s.dict "__class__" = false) :
    (toJSON cls s (some true) (some "flat")).2 = s ∧
    ∀ ic, (toJSON cls s ic (some "single-key")).2 = s := by
  constructor
  · simp only [toJSON, Option.getD]
    simp [dpop_dset_of_not_has s.dict "__class__" _ h]
  · intro ic
    by_cases hic : ic.getD cls.includeclass = true
    · simp [toJSON, hic]
    · simp [toJSON, hic]

/-- C9 witness: a record holding only an unregistered opaque value —
its dump fails, yet the store is restored. -/
theorem c9_witness :
    (toJSON exCls { dict := .cons "x" (.unencodable 0) .nil, mutable := true }
      (some true) (some "flat")).2 =
      { dict := .cons "x" (.unencodable 0) .nil, mutable := true } :=
  (c9_tojson_frame exCls
    { dict := .cons "x" (.unencodable 0) .nil, mutable := true } (by decide)).1

/-- Seeding defaults never touches a field all of whose declarations
lack a default. -/
theorem seedDefaults_absent (attrs : List (String × Attr)) (d : PyDict)
    (name : String)
    (hattr : ∀ na ∈ attrs, na.1 = name → na.2.default = Option.none) :
    dget (seedDefaults attrs d) name = dget d name := by
  induction attrs generalizing d with
  | nil => rfl
  | cons hd rest ih =>
    obtain ⟨n, a⟩ := hd
    have hrest : ∀ na ∈ rest, na.1 = name → na.2.default = Option.none :=
      fun na hna => hattr na (List.mem_cons_of_mem _ hna)
    match hdef : a.default with
    | Option.none => simpa [seedDefaults, hdef] using ih d hrest
    | some dv =>
      have hne : n ≠ name := by
        intro hEq
        have := hattr (n, a) (by simp) hEq
        simp [hdef] at this
      by_cases hh : dhas d n
      · simpa [seedDefaults, hdef, hh] using ih d hrest
      · have := ih (dset d n dv) hrest
        simpa [seedDefaults, hdef, hh, dget_dset_ne d n name dv hne] using this

/-- C6: (a) a field with an eager default never invokes its builder on
any read, and an absent key resolves to the default, caching it;
(b) a field with only a builder is untouched at construction (the key
stays absent when not supplied), the builder runs exactly once on the
first read of the absent key — caching its value — and a subsequent
read returns the cached value with no further invocation; each record
state evolves independently, so two fresh instances each perform their
own single evaluation. -/
theorem c6_default_builder (cls : ClassSpec) (a : Attr) (name : String)
    (kwargs : PyDict) (dv bv : PyValue) :
    (a.default = some dv →
      (∀ s, (attr_fget a name s).2.2 = 0) ∧
      (∀ s, dget s.dict name = Option.none →
        attr_fget a name s = ({ s with dict := dset s.dict name dv }, dv, 0))) ∧
    (a.default = Option.none → a.builder = some bv →
      (∀ na ∈ cls.attrs, na.1 = name → na.2.default = Option.none) →
      dget kwargs name = Option.none →
      dget (objectInit cls kwargs).dict name = Option.none ∧
      (∀ s, dget s.dict name = Option.none →
        attr_fget a name s = ({ s with dict := dset s.dict name bv }, bv, 1) ∧
        attr_fget a name { s with dict := dset s.dict name bv } =
          ({ s with dict := dset s.dict name bv }, bv, 0))) := by
  constructor
  · intro hdef
    constructor
    · intro s
      match hget : dget s.dict name with
      | some v => simp [attr_fget, hget]
      | Option.none => simp [attr_fget, hget, hdef]
    · intro s hget
      simp [attr_fget, hget, hdef]
  · intro hdef hbld hattrs hkw
    constructor
    · simpa [objectInit, hkw] using
        seedDefaults_absent cls.attrs kwargs name hattrs
    · intro s hget
      constructor
      · simp [attr_fget, hget, hdef, hbld]
      · simp [attr_fget, dget_dset_self s.dict name bv]

/-- C6 witness: a builder-only field of a fresh empty record leaves no
key at construction, builds `9` on first read and caches it. -/
theorem c6_witness :
    dget (objectInit
      { attrs := [("bar", { attrPlain with builder := some (.pyint 9) })],
        dundername := "__tests.B__" } PyDict.nil).dict "bar" = Option.none ∧
    attr_fget { attrPlain with builder := some (.pyint 9) } "bar"
      { dict := PyDict.nil, mutable := true } =
      ({ dict := .cons "bar" (.pyint 9) .nil, mutable := true }, .pyint 9, 1) := by
  have h := (c6_default_builder
    { attrs := [("bar", { attrPlain with builder := some (.pyint 9) })],
      dundername := "__tests.B__" }
    { attrPlain with builder := some (.pyint 9) } "bar" PyDict.nil
    .pynone (.pyint 9)).2 (by decide) (by decide)
    (by intro na hna hn; simp at hna; simp [hna, attrPlain]) (by decide)
  exact ⟨h.1, (h.2 { dict := PyDict.nil, mutable := true } (by decide)).1⟩

theorem dget_none_of_not_mem_keys (d : PyDict) (k : String)
    (h : k ∉ dkeys d) : dget d k = Option.none := by
  induction d using PyDict.spineInd with
  | h0 => rfl
  | h1 k2 v t ih =>
    simp [dkeys] at h
    have hne : ¬ k2 = k := fun hEq => h.1 hEq.symm
    simp [dget, hne, ih h.2]

theorem dget_dpop_self (d : PyDict) (k : String) (h : (dkeys d).Nodup) :
    dget (dpop d k) k = Option.none := by
  induction d using PyDict.spineInd with
  | h0 => rfl
  | h1 k2 v t ih =>
    simp [dkeys, List.nodup_cons] at h
    by_cases h2 : k2 = k
    · subst h2
      simpa [dpop] using dget_none_of_not_mem_keys t k2 h.1
    · simp [dpop, dget, h2, ih h.2]

/-- When a dict is not the single-key dunder wrapper, `load_data`
(on a mutable record) routes it unchanged into the flat tail. -/
theorem load_data_flat (cls : ClassSpec) (s : RecordState) (d : PyDict)
    (strat : Option String) (vco : Option Bool) (hmut : s.mutable = true)
    (hshape : ∀ k v, d = PyDict.cons k v PyDict.nil → k ≠ cls.dundername) :
    load_data cls s (.pydict d) strat vco =
      ((loadFlat cls s d (vco.getD cls.verifyclass) strat).1,
       (loadFlat cls s d (vco.getD cls.verifyclass) strat).2.1,
       .pydict (loadFlat cls s d (vco.getD cls.verifyclass) strat).2.2) := by
  match d with
  | .nil => simp [load_data, hmut]
  | .cons k v (.cons k2 v2 t) => simp [load_data, hmut]
  | .cons k v .nil =>
    have hk : k ≠ cls.dundername := hshape k v rfl
    cases v <;> simp [load_data, hmut, hk]

/-- C10: `load_data` on a flat mapping holding a `"__class__"` key
mutates the caller's mapping: whenever the call proceeds past tag
verification — verification disabled, or a matching tag — the
`"__class__"` entry is popped out of the mapping itself before
validation (so it is gone no matter how validation ends); when
verification fails the mapping still holds it. -/
theorem c10_load_data_mutates_input (cls : ClassSpec) (s : RecordState)
    (d : PyDict) (w : PyValue) (strat : Option String) (vco : Option Bool)
    (hmut : s.mutable = true) (hdn : cls.dundername ≠ "__class__")
    (hw : dget d "__class__" = some w) (hnodup : (dkeys d).Nodup) :
    (load_data cls s (.pydict d) strat (some false)).2.2 =
      .pydict (dpop d "__class__") ∧
    (w = .pystr cls.dundername →
      (load_data cls s (.pydict d) strat vco).2.2 =
        .pydict (dpop d "__class__")) ∧
    (w ≠ .pystr cls.dundername →
      (load_data cls s (.pydict d) strat (some true)).2.2 = .pydict d) ∧
    dget (dpop d "__class__") "__class__" = Option.none := by
  have hshape : ∀ k v, d = PyDict.cons k v PyDict.nil → k ≠ cls.dundername := by
    intro k v hd
    subst hd
    have hk : k = "__class__" := by
      by_cases hk2 : k = "__class__"
      · exact hk2
      · simp [dget, hk2] at hw
    subst hk
    exact Ne.symm hdn
  refine ⟨?_, ?_, ?_, dget_dpop_self d "__class__" hnodup⟩
  · rw [load_data_flat cls s d strat (some false) hmut hshape]
    cases hval : validate_data cls (dpop d "__class__") strat <;>
      simp [loadFlat, hval]
  · intro hwd
    subst hwd
    rw [load_data_flat cls s d strat vco hmut hshape]
    cases hval : validate_data cls (dpop d "__class__") strat <;>
      simp [loadFlat, hw, hval]
  · intro hwne
    rw [load_data_flat cls s d strat (some true) hmut hshape]
    have : dget d "__class__" ≠ some (.pystr cls.dundername) := by
      rw [hw]
      simp
      intro hEq
      exact hwne hEq
    simp [loadFlat, this]

/-- C10 witness: a wrong-tag flat mapping, loaded with verification
disabled, comes back to the caller without its `"__class__"` entry. -/
theorem c10_witness :
    (load_data exCls { dict := PyDict.nil, mutable := true }
      (.pydict (.cons "__class__" (.pystr "__other.Cls__")
        (.cons "foo" (.pyint 5) .nil)))
      Option.none (some false)).2.2 =
    .pydict (dpop (.cons "__class__" (.pystr "__other.Cls__")
      (.cons "foo" (.pyint 5) .nil)) "__class__") :=
  (c10_load_data_mutates_input exCls { dict := PyDict.nil, mutable := true }
    (.cons "__class__" (.pystr "__other.Cls__") (.cons "foo" (.pyint 5) .nil))
    (.pystr "__other.Cls__") Option.none Option.none (by decide) (by decide)
    (by decide) (by decide)).1

/-! ## Validation lemmas -/

/-- `true` exactly on `Except.ok`. -/
def isOkE {ε α : Type} (e : Except ε α) : Bool :=
  match e with
  | .ok _ => true
  | .error _ => false

theorem isOkE_exists {ε α : Type} (e : Except ε α) (h : isOkE e = true) :
    ∃ x, e = .ok x := by
  cases e with
  | ok x => exact ⟨x, rfl⟩
  | error _ => simp [isOkE] at h

/-- Every input entry whose key names a declared attr passes that
attr's validator. -/
def declaredValuesOk (attrs : List (String × Attr)) (d : PyDict) : Bool :=
  dAllB (fun k v =>
    match agetAttr attrs k with
    | some a => isOkE (attrCall a v)
    | Option.none => true) d

theorem agetAttr_of_mem_nodup (attrs : List (String × Attr))
    (na : String × Attr) (hmem : na ∈ attrs)
    (hnd : (attrs.map Prod.fst).Nodup) :
    agetAttr attrs na.1 = some na.2 := by
  induction attrs with
  | nil => cases hmem
  | cons hd rest ih =>
    rw [List.map_cons, List.nodup_cons] at hnd
    rcases List.mem_cons.mp hmem with rfl | hmem2
    · simp [agetAttr]
    · have hne : hd.1 ≠ na.1 := by
        intro hEq
        exact hnd.1 (hEq ▸ List.mem_map_of_mem Prod.fst hmem2)
      obtain ⟨n0, a0⟩ := hd
      simpa [agetAttr, hne] using ih hmem2 hnd.2

theorem vdLoop_ok (attrs : List (String × Attr)) (d : PyDict)
    (hvals : ∀ na ∈ attrs, ∀ v, dget d na.1 = some v →
      isOkE (attrCall na.2 v) = true) :
    ∀ init, ∃ out, vdLoop attrs d init = .ok out := by
  induction attrs with
  | nil => exact fun init => ⟨init, rfl⟩
  | cons hd rest ih =>
    intro init
    obtain ⟨name, a⟩ := hd
    have hrest : ∀ na ∈ rest, ∀ v, dget d na.1 = some v →
        isOkE (attrCall na.2 v) = true :=
      fun na hna => hvals na (List.mem_cons_of_mem _ hna)
    match hget : dget d name with
    | some v =>
      obtain ⟨cv, hcv⟩ := isOkE_exists _ (hvals (name, a) (by simp) v hget)
      simpa [vdLoop, hget, hcv] using ih hrest (dset init name cv)
    | Option.none =>
      match hdef : a.default with
      | some dv => simpa [vdLoop, hget, hdef] using ih hrest (dset init name dv)
      | Option.none => simpa [vdLoop, hget, hdef] using ih hrest init

theorem vdLoop_track (attrs : List (String × Attr)) (d : PyDict) (k : String)
    (hk : agetAttr attrs k = Option.none) :
    ∀ init out, vdLoop attrs d init = .ok out → dget out k = dget init k := by
  induction attrs with
  | nil =>
    intro init out h
    simp [vdLoop] at h
    rw [h]
  | cons hd rest ih =>
    obtain ⟨name, a⟩ := hd
    have hne : name ≠ k := by
      intro hEq
      simp [agetAttr, hEq] at hk
    have hkrest : agetAttr rest k = Option.none := by
      simpa [agetAttr, hne] using hk
    intro init out h
    match hget : dget d name with
    | some v =>
      match hcv : attrCall a v with
      | .ok cv =>
        simp only [vdLoop, hget, hcv] at h
        rw [ih hkrest (dset init name cv) out h, dget_dset_ne init name k cv hne]
      | .error e => simp [vdLoop, hget, hcv] at h
    | Option.none =>
      match hdef : a.default with
      | some dv =>
        simp only [vdLoop, hget, hdef] at h
        rw [ih hkrest (dset init name dv) out h, dget_dset_ne init name k dv hne]
      | Option.none =>
        simp only [vdLoop, hget, hdef] at h
        exact ih hkrest init out h

theorem mem_undeclaredKeys (attrs : List (String × Attr)) (d : PyDict)
    (u : String) (h : u ∈ undeclaredKeys attrs d) :
    agetAttr attrs u = Option.none ∧ u ∈ dkeys d := by
  have h2 := List.mem_filter.mp h
  exact ⟨Option.isNone_iff_eq_none.mp h2.2, h2.1⟩

theorem dget_isSome_of_mem_keys (d : PyDict) (k : String)
    (h : k ∈ dkeys d) : (dget d k).isSome = true := by
  induction d using PyDict.spineInd with
  | h0 => cases h
  | h1 k2 v t ih =>
    by_cases h2 : k2 = k
    · simp [dget, h2]
    · simp [dkeys] at h
      rcases h with rfl | h3
      · exact absurd rfl h2
      · simp [dget, h2, ih h3]

theorem vuLoop_strict_err (attrs : List (String × Attr)) (ents : PyDict)
    (hvals : declaredValuesOk attrs ents = true)
    (hne : undeclaredKeys attrs ents ≠ []) :
    ∀ init, vuLoop attrs "strict" ents init =
      .error (.valueError "key not permitted") := by
  induction ents using PyDict.spineInd with
  | h0 => simp [undeclaredKeys, dkeys] at hne
  | h1 k v t ih =>
    intro init
    simp only [declaredValuesOk, dAllB, Bool.and_eq_true] at hvals
    match hk : agetAttr attrs k with
    | Option.none => simp [vuLoop, hk]
    | some a =>
      have hok : isOkE (attrCall a v) = true := by
        have := hvals.1
        rwa [hk] at this
      obtain ⟨cv, hcv⟩ := isOkE_exists _ hok
      have hnet : undeclaredKeys attrs t ≠ [] := by
        simpa [undeclaredKeys, dkeys, hk] using hne
      simpa [vuLoop, hk, hcv] using ih hvals.2 hnet (dset init k cv)

theorem vuLoop_ok (attrs : List (String × Attr)) (strategy : String)
    (hst : strategy ≠ "strict") (ents : PyDict)
    (hvals : declaredValuesOk attrs ents = true) :
    ∀ init, ∃ out, vuLoop attrs strategy ents init = .ok out ∧
      ∀ k, agetAttr attrs k = Option.none → dget out k = dget init k := by
  induction ents using PyDict.spineInd with
  | h0 => exact fun init => ⟨init, rfl, fun _ _ => rfl⟩
  | h1 k v t ih =>
    intro init
    simp only [declaredValuesOk, dAllB, Bool.and_eq_true] at hvals
    match hk : agetAttr attrs k with
    | Option.none =>
      obtain ⟨out, hout, htrack⟩ := ih hvals.2 init
      exact ⟨out, by simpa [vuLoop, hk, hst] using hout, htrack⟩
    | some a =>
      have hok : isOkE (attrCall a v) = true := by
        have := hvals.1
        rwa [hk] at this
      obtain ⟨cv, hcv⟩ := isOkE_exists _ hok
      obtain ⟨out, hout, htrack⟩ := ih hvals.2 (dset init k cv)
      refine ⟨out, by simpa [vuLoop, hk, hcv] using hout, ?_⟩
      intro k2 hk2
      have hne : k ≠ k2 := by
        intro hEq
        rw [hEq, hk2] at hk
        cases hk
      rw [htrack k2 hk2, dget_dset_ne init k k2 cv hne]

/-- C2 counterexample: the input `{"foo": "bad", "x": 1}` has exactly
one undeclared key (`"x"`), yet under the `loose` policy
`validate_data` does not return a mapping without `"x"` — it raises the
declared field's `ValueError`, because declared keys are validated
under every policy.  The claim holds only when the declared values
pass. -/
theorem c2_counterexample :
    undeclaredKeys exCls.attrs
      (.cons "foo" (.pystr "bad") (.cons "x" (.pyint 1) .nil)) = ["x"] ∧
    validate_data exCls
      (.cons "foo" (.pystr "bad") (.cons "x" (.pyint 1) .nil))
      (some "loose") = .error (.valueError "invalid literal for int()") := by
  exact ⟨by decide, by decide⟩

/-- C2 (amended): for any record type and input mapping with exactly
one undeclared key, provided every declared key's value passes its
validator: `strict` raises (for both `validate_data` and
`validate_update`), `loose` returns a mapping without the undeclared
key, and `sloppy` returns a mapping that still maps it to its original,
unvalidated value (the key is genuinely present in the input). -/
theorem c2_strictness_policies (cls : ClassSpec) (d : PyDict) (u : String)
    (hand : (cls.attrs.map Prod.fst).Nodup)
    (hu : undeclaredKeys cls.attrs d = [u])
    (hvals : declaredValuesOk cls.attrs d = true) :
    validate_data cls d (some "strict") =
      .error (.valueError "keys not permitted") ∧
    validate_update cls d (some "strict") =
      .error (.valueError "key not permitted") ∧
    (∃ out, validate_data cls d (some "loose") = .ok out ∧
      dget out u = Option.none) ∧
    (∃ out, validate_update cls d (some "loose") = .ok out ∧
      dget out u = Option.none) ∧
    (∃ out, validate_data cls d (some "sloppy") = .ok out ∧
      dget out u = dget d u) ∧
    (∃ out, validate_update cls d (some "sloppy") = .ok out ∧
      dget out u = dget d u) ∧
    (dget d u).isSome = true := by
  have humem : agetAttr cls.attrs u = Option.none ∧ u ∈ dkeys d :=
    mem_undeclaredKeys cls.attrs d u (by rw [hu]; simp)
  have hvdvals : ∀ na ∈ cls.attrs, ∀ v, dget d na.1 = some v →
      isOkE (attrCall na.2 v) = true := by
    intro na hna v hget
    have hbody := dAllB_dget _ d na.1 v hvals hget
    rwa [agetAttr_of_mem_nodup cls.attrs na hna hand] at hbody
  refine ⟨?_, ?_, ?_, ?_, ?_, ?_, dget_isSome_of_mem_keys d u humem.2⟩
  · obtain ⟨out, hout⟩ := vdLoop_ok cls.attrs d hvdvals .nil
    simp [validate_data, hout, hu]
  · exact vuLoop_strict_err cls.attrs d hvals (by rw [hu]; simp) .nil
  · obtain ⟨out, hout⟩ := vdLoop_ok cls.attrs d hvdvals .nil
    refine ⟨out, by simp [validate_data, hout], ?_⟩
    rw [vdLoop_track cls.attrs d u humem.1 .nil out hout]
    rfl
  · obtain ⟨out, hout, htrack⟩ :=
      vuLoop_ok cls.attrs "loose" (by decide) d hvals .nil
    refine ⟨out, by simp [validate_update, hout], ?_⟩
    rw [htrack u humem.1]
    rfl
  · obtain ⟨out, hout⟩ := vdLoop_ok cls.attrs d hvdvals d
    refine ⟨out, by simp [validate_data, hout], ?_⟩
    exact vdLoop_track cls.attrs d u humem.1 d out hout
  · obtain ⟨out, hout, htrack⟩ :=
      vuLoop_ok cls.attrs "sloppy" (by decide) d hvals d
    exact ⟨out, by simp [validate_update, hout], htrack u humem.1⟩

/-- C2 witness: the amended theorem at `{"foo": 5, "x": 1}` against the
one-int-field example class. -/
theorem c2_witness :
    validate_data exCls (.cons "foo" (.pyint 5) (.cons "x" (.pyint 1) .nil))
      (some "strict") = .error (.valueError "keys not permitted") :=
  (c2_strictness_policies exCls
    (.cons "foo" (.pyint 5) (.cons "x" (.pyint 1) .nil)) "x"
    (by decide) (by decide) (by decide)).1

/-- A flat dict holding a `"__class__"` key cannot be the single-key
dunder wrapper (the tag never equals `"__class__"`). -/
theorem flat_shape_of_class_key (cls : ClassSpec) (d : PyDict) (w : PyValue)
    (hdn : cls.dundername ≠ "__class__") (hw : dget d "__class__" = some w) :
    ∀ k v, d = PyDict.cons k v PyDict.nil → k ≠ cls.dundername := by
  intro k v hd
  subst hd
  have hk : k = "__class__" := by
    by_cases hk2 : k = "__class__"
    · exact hk2
    · simp [dget, hk2] at hw
  subst hk
  exact Ne.symm hdn

/-- C5 counterexample: a flat mapping with a mismatched `"__class__"`
tag and an invalid declared value, loaded with verification disabled,
does *not* load successfully — validation of the declared field raises.
The claim's second half holds only when the remaining payload passes
validation. -/
theorem c5_counterexample :
    load_data exCls { dict := PyDict.nil, mutable := true }
      (.pydict (.cons "__class__" (.pystr "__other.Cls__")
        (.cons "foo" (.pystr "bad") .nil)))
      Option.none (some false) =
    ({ dict := PyDict.nil, mutable := true },
      .error (.valueError "invalid literal for int()"),
      .pydict (.cons "foo" (.pystr "bad") .nil)) := by decide

/-- C5 (amended): on a mutable record, a flat mapping whose
`"__class__"` value differs from the class tag: with verification
enabled `load_data` raises the class-mismatch `ValueError` and leaves
both the record and the mapping untouched; with verification disabled —
provided the remaining payload passes validation — it loads
successfully, replacing the store with the validated payload, which
never contains the mismatched tag entry. -/
theorem c5_class_tag_verification (cls : ClassSpec) (s : RecordState)
    (d : PyDict) (w : PyValue) (nd : PyDict)
    (hmut : s.mutable = true) (hdn : cls.dundername ≠ "__class__")
    (hw : dget d "__class__" = some w) (hwne : w ≠ .pystr cls.dundername)
    (hnodup : (dkeys d).Nodup)
    (hundecl : agetAttr cls.attrs "__class__" = Option.none)
    (hsucc : validate_data cls (dpop d "__class__") Option.none = .ok nd) :
    load_data cls s (.pydict d) Option.none (some true) =
      (s, .error (.valueError "got another object, but expected this class"),
       .pydict d) ∧
    load_data cls s (.pydict d) Option.none (some false) =
      ({ s with dict := nd }, .ok (), .pydict (dpop d "__class__")) ∧
    dget nd "__class__" = Option.none := by
  have hshape := flat_shape_of_class_key cls d w hdn hw
  have hmissc : dget d "__class__" ≠ some (.pystr cls.dundername) := by
    rw [hw]
    exact fun h => hwne (Option.some.inj h)
  refine ⟨?_, ?_, ?_⟩
  · rw [load_data_flat cls s d Option.none (some true) hmut hshape]
    simp [loadFlat, hmissc]
  · rw [load_data_flat cls s d Option.none (some false) hmut hshape]
    simp [loadFlat, hsucc]
  · have hpop : dget (dpop d "__class__") "__class__" = Option.none :=
      dget_dpop_self d "__class__" hnodup
    simp only [validate_data] at hsucc
    split at hsucc
    next e heq => cases hsucc
    next data heq =>
      split at hsucc
      · cases hsucc
      · have hdata : data = nd := by injection hsucc
        subst hdata
        rw [vdLoop_track cls.attrs (dpop d "__class__") "__class__" hundecl _ _
          heq]
        split
        · exact hpop
        · rfl

/-- C5 witness: the amended theorem at a wrong-tag mapping carrying a
valid `foo` value. -/
theorem c5_witness :
    load_data exCls { dict := PyDict.nil, mutable := true }
      (.pydict (.cons "__class__" (.pystr "__other.Cls__")
        (.cons "foo" (.pyint 5) .nil)))
      Option.none (some true) =
    ({ dict := PyDict.nil, mutable := true },
      .error (.valueError "got another object, but expected this class"),
      .pydict (.cons "__class__" (.pystr "__other.Cls__")
        (.cons "foo" (.pyint 5) .nil))) :=
  (c5_class_tag_verification exCls { dict := PyDict.nil, mutable := true }
    (.cons "__class__" (.pystr "__other.Cls__") (.cons "foo" (.pyint 5) .nil))
    (.pystr "__other.Cls__") (.cons "foo" (.pyint 5) .nil)
    (by decide) (by decide) (by decide) (by decide) (by decide) rfl
    (by decide)).1

/-! ## Round-trip lemmas -/

theorem dAllB_mono (p q : String → PyValue → Bool) (d : PyDict)
    (himp : ∀ k v, p k v = true → q k v = true)
    (h : dAllB p d = true) : dAllB q d = true := by
  induction d using PyDict.spineInd with
  | h0 => rfl
  | h1 k v t ih =>
    simp only [dAllB, Bool.and_eq_true] at h ⊢
    exact ⟨himp k v h.1, ih h.2⟩

theorem dset_ne_nil (d : PyDict) (k : String) (v : PyValue) :
    dset d k v ≠ PyDict.nil := by
  cases d with
  | nil => simp [dset]
  | cons k2 v2 t =>
    by_cases h : k2 = k <;> simp [dset, h]

theorem dset_singleton_key (d : PyDict) (k : String) (v : PyValue)
    (k1 : String) (v1 : PyValue)
    (h : dset d k v = PyDict.cons k1 v1 PyDict.nil) : k1 = k := by
  cases d with
  | nil =>
    simp [dset] at h
    exact h.1.symm
  | cons k2 v2 t =>
    by_cases h2 : k2 = k
    · simp [dset, h2] at h
      exact h.1.symm
    · simp [dset, h2] at h
      exact absurd h.2.2 (dset_ne_nil t k v)

/-- One stored entry admissible for the round trip: its value dumps to
itself, survives the object-hook walk unchanged, and its key collides
with no decode hook and is not the `"__class__"` marker. -/
def c1EntryOk (cls : ClassSpec) (k : String) (v : PyValue) : Bool :=
  decide (jsonNormalize cls v = .ok v) &&
  decide (hookWalk cls v = .ok v) &&
  !(k == "__set__") && !(k == "__frozenset__") &&
  !(k == cls.dundername) && !(k == "__class__")

theorem c1EntryOk_spec (cls : ClassSpec) (k : String) (v : PyValue)
    (h : c1EntryOk cls k v = true) :
    jsonNormalize cls v = .ok v ∧ hookWalk cls v = .ok v ∧
    k ≠ "__set__" ∧ k ≠ "__frozenset__" ∧ k ≠ cls.dundername ∧
    k ≠ "__class__" := by
  simp only [c1EntryOk, Bool.and_eq_true, decide_eq_true_eq, Bool.not_eq_true',
    beq_eq_false_iff_ne] at h
  exact ⟨h.1.1.1.1.1, h.1.1.1.1.2, h.1.1.1.2, h.1.1.2, h.1.2, h.2⟩

theorem jsonNormalizeDict_id (cls : ClassSpec) (d : PyDict)
    (h : dAllB (fun _ v => decide (jsonNormalize cls v = .ok v)) d = true) :
    jsonNormalizeDict cls d = .ok d := by
  induction d using PyDict.spineInd with
  | h0 => rfl
  | h1 k v t ih =>
    simp only [dAllB, Bool.and_eq_true, decide_eq_true_eq] at h
    simp [jsonNormalizeDict, h.1, ih (by simpa using h.2), Bind.bind, Except.bind]

theorem hookWalkDict_id (cls : ClassSpec) (d : PyDict)
    (h : dAllB (fun _ v => decide (hookWalk cls v = .ok v)) d = true) :
    hookWalkDict cls d = .ok d := by
  induction d using PyDict.spineInd with
  | h0 => rfl
  | h1 k v t ih =>
    simp only [dAllB, Bool.and_eq_true, decide_eq_true_eq] at h
    simp [hookWalkDict, h.1, ih (by simpa using h.2), Bind.bind, Except.bind]

theorem applyHook_pass (cls : ClassSpec) (d : PyDict)
    (hsing : ∀ k v, d = PyDict.cons k v PyDict.nil →
      k ≠ "__set__" ∧ k ≠ "__frozenset__" ∧ k ≠ cls.dundername) :
    applyHook cls (.pydict d) = .ok (.pydict d) := by
  match d with
  | .nil => rfl
  | .cons k v (.cons k2 v2 t) => rfl
  | .cons k v .nil =>
    obtain ⟨h1, h2, h3⟩ := hsing k v rfl
    simp [applyHook, h1, h2, h3]

theorem hookWalk_dict_pass (cls : ClassSpec) (d : PyDict)
    (hvals : dAllB (fun _ v => decide (hookWalk cls v = .ok v)) d = true)
    (hsing : ∀ k v, d = PyDict.cons k v PyDict.nil →
      k ≠ "__set__" ∧ k ≠ "__frozenset__" ∧ k ≠ cls.dundername) :
    hookWalk cls (.pydict d) = .ok (.pydict d) := by
  simp [hookWalk, hookWalkDict_id cls d hvals, applyHook_pass cls d hsing,
    Bind.bind, Except.bind]

theorem agetAttr_isSome_of_mem (attrs : List (String × Attr))
    (na : String × Attr) (hmem : na ∈ attrs) :
    (agetAttr attrs na.1).isSome = true := by
  induction attrs with
  | nil => cases hmem
  | cons hd rest ih =>
    rcases List.mem_cons.mp hmem with rfl | hmem2
    · simp [agetAttr]
    · obtain ⟨n0, a0⟩ := hd
      by_cases h : n0 = na.1
      · simp [agetAttr, h]
      · simpa [agetAttr, h] using ih hmem2

theorem undeclaredKeys_nil (attrs : List (String × Attr)) (d : PyDict)
    (hdecl : dAllBKeys (fun k => (agetAttr attrs k).isSome) d = true) :
    undeclaredKeys attrs d = [] := by
  induction d using PyDict.spineInd with
  | h0 => rfl
  | h1 k v t ih =>
    simp only [dAllBKeys, dAllB, Bool.and_eq_true] at hdecl
    have hk : (agetAttr attrs k).isNone = false := by
      rcases hopt : agetAttr attrs k with _ | a
      · rw [hopt] at hdecl; cases hdecl.1
      · rfl
    have := ih (by simpa [dAllBKeys] using hdecl.2)
    simpa [undeclaredKeys, dkeys, hk] using this

theorem vdLoop_keys (attrs : List (String × Attr)) (d : PyDict)
    (p : String → Bool) (hp : ∀ na ∈ attrs, p na.1 = true) :
    ∀ init out, dAllBKeys p init = true → vdLoop attrs d init = .ok out →
      dAllBKeys p out = true := by
  induction attrs with
  | nil =>
    intro init out hinit h
    simp [vdLoop] at h
    rwa [← h]
  | cons hd rest ih =>
    obtain ⟨name, a⟩ := hd
    have hname : p name = true := hp (name, a) (by simp)
    have hprest : ∀ na ∈ rest, p na.1 = true :=
      fun na hna => hp na (List.mem_cons_of_mem _ hna)
    intro init out hinit h
    match hget : dget d name with
    | some v =>
      match hcv : attrCall a v with
      | .ok cv =>
        simp only [vdLoop, hget, hcv] at h
        exact ih hprest (dset init name cv) out
          (dAllB_dset _ init name cv hinit hname) h
      | .error e => simp [vdLoop, hget, hcv] at h
    | Option.none =>
      match hdef : a.default with
      | some dv =>
        simp only [vdLoop, hget, hdef] at h
        exact ih hprest (dset init name dv) out
          (dAllB_dset _ init name dv hinit hname) h
      | Option.none =>
        simp only [vdLoop, hget, hdef] at h
        exact ih hprest init out hinit h

/-- The schema loop on already-canonical data: it succeeds and the
result looks up to the input at declared present keys and to the
accumulator elsewhere. -/
theorem vdLoop_canonical (attrs : List (String × Attr)) (d : PyDict)
    (hcanon : ∀ na ∈ attrs, match dget d na.1 with
      | some v => attrCall na.2 v = .ok v
      | Option.none => na.2.default = Option.none) :
    ∀ init, ∃ out, vdLoop attrs d init = .ok out ∧
      ∀ k, dget out k =
        if (agetAttr attrs k).isSome ∧ (dget d k).isSome
        then dget d k else dget init k := by
  induction attrs with
  | nil =>
    intro init
    refine ⟨init, rfl, fun k => ?_⟩
    simp [agetAttr]
  | cons hd rest ih =>
    intro init
    obtain ⟨name, a⟩ := hd
    have hrest : ∀ na ∈ rest, match dget d na.1 with
        | some v => attrCall na.2 v = .ok v
        | Option.none => na.2.default = Option.none :=
      fun na hna => hcanon na (List.mem_cons_of_mem _ hna)
    have hhead := hcanon (name, a) (by simp)
    match hget : dget d name with
    | some v =>
      rw [hget] at hhead
      have hcv : attrCall a v = .ok v := hhead
      obtain ⟨out, hout, htrack⟩ := ih hrest (dset init name v)
      refine ⟨out, by simp [vdLoop, hget, hcv, hout], fun k => ?_⟩
      by_cases hk : name = k
      · subst hk
        rw [htrack name]
        have hsetget : dget (dset init name v) name = dget d name := by
          rw [dget_dset_self, hget]
        have hagc : agetAttr ((name, a) :: rest) name = some a := by
          simp [agetAttr]
        rw [hagc]
        simp only [Option.isSome_some, hget, true_and]
        by_cases hrs : (agetAttr rest name).isSome = true
        · simp [hrs]
        · simp [hrs, hsetget, hget]
      · rw [htrack k]
        have hagc : agetAttr ((name, a) :: rest) k = agetAttr rest k := by
          simp [agetAttr, hk]
        rw [hagc, dget_dset_ne init name k v hk]
    | Option.none =>
      rw [hget] at hhead
      have hdef : a.default = Option.none := hhead
      obtain ⟨out, hout, htrack⟩ := ih hrest init
      refine ⟨out, by simp [vdLoop, hget, hdef, hout], fun k => ?_⟩
      rw [htrack k]
      by_cases hk : name = k
      · subst hk
        simp [agetAttr, hget]
      · simp [agetAttr, hk]

/-- `validate_data` with the class default strategy on canonical,
fully declared data: succeeds, preserves every lookup, and yields only
declared keys. -/
theorem validate_canonical (cls : ClassSpec) (d : PyDict)
    (hdecl : dAllBKeys (fun k => (agetAttr cls.attrs k).isSome) d = true)
    (hcanon : ∀ na ∈ cls.attrs, match dget d na.1 with
      | some v => attrCall na.2 v = .ok v
      | Option.none => na.2.default = Option.none) :
    ∃ out, validate_data cls d Option.none = .ok out ∧
      (∀ k, dget out k = dget d k) ∧
      dAllBKeys (fun k => (agetAttr cls.attrs k).isSome) out = true := by
  obtain ⟨out, hout, htrack⟩ := vdLoop_canonical cls.attrs d hcanon
    (if cls.importStrategy = "sloppy" then d else PyDict.nil)
  have hinit : dAllBKeys (fun k => (agetAttr cls.attrs k).isSome)
      (if cls.importStrategy = "sloppy" then d else PyDict.nil) = true := by
    by_cases hsl : cls.importStrategy = "sloppy"
    · simpa [hsl] using hdecl
    · simp [hsl]
      rfl
  refine ⟨out, ?_, ?_, ?_⟩
  · simp only [validate_data, Option.getD_none]
    rw [hout]
    simp [undeclaredKeys_nil cls.attrs d hdecl]
  · intro k
    rw [htrack k]
    by_cases hp : (dget d k).isSome = true
    · obtain ⟨v, hv⟩ := Option.isSome_iff_exists.mp hp
      have hdecl_k := dAllB_dget _ d k v hdecl hv
      simp [hdecl_k, hp]
    · have hnone : dget d k = Option.none :=
        Option.not_isSome_iff_eq_none.mp (by simpa using hp)
      by_cases hsl : cls.importStrategy = "sloppy" <;>
        simp [hsl, hnone, dget]
  · exact vdLoop_keys cls.attrs d _
      (fun na hna => agetAttr_isSome_of_mem cls.attrs na hna) _ out hinit hout

/-- C1 counterexample: the JSON-representable store `{"foo": "5"}` of
the one-`Attr(int)`-field class round-trips to `{"foo": 5}` — decoding
re-validates every declared key, so a non-canonical stored value (the
string `"5"`) comes back changed and the decoded backing store does not
equal the original. -/
theorem c1_counterexample :
    decodeEncode exCls
      { dict := .cons "foo" (.pystr "5") .nil, mutable := true } "flat" =
      .ok { dict := .cons "foo" (.pyint 5) .nil, mutable := true } ∧
    ¬ storeEqv (.cons "foo" (.pyint 5) .nil)
        (.cons "foo" (.pystr "5") .nil) := by
  refine ⟨by decide, fun h => absurd (h "foo") (by decide)⟩

/-- C1 (amended): for a registered record type with class-tag inclusion
whose tag avoids the reserved hook names, and a record whose stored
entries are all declared, canonical for their validators (fields with
defaults present), dump- and hook-invariant, and whose keys avoid the
hook names and `"__class__"`, `decode(encode(r))` succeeds under both
the flat and the single-key style and yields a mutable record whose
backing store equals `r`'s (as Python dict equality: key-wise lookup
agreement). -/
theorem c1_roundtrip (cls : ClassSpec) (r : RecordState)
    (hreg : cls.registerType = true)
    (hinc : cls.includeclass = true)
    (htag1 : cls.dundername ≠ "__set__")
    (htag2 : cls.dundername ≠ "__frozenset__")
    (htag3 : cls.dundername ≠ "__class__")
    (hdecl : dAllBKeys (fun k => (agetAttr cls.attrs k).isSome) r.dict = true)
    (hcanon : ∀ na ∈ cls.attrs, match dget r.dict na.1 with
      | some v => attrCall na.2 v = .ok v
      | Option.none => na.2.default = Option.none)
    (hclean : dAllB (c1EntryOk cls) r.dict = true) :
    (∃ r2, decodeEncode cls r "flat" = .ok r2 ∧
      storeEqv r2.dict r.dict ∧ r2.mutable = true) ∧
    (∃ r2, decodeEncode cls r "single-key" = .ok r2 ∧
      storeEqv r2.dict r.dict ∧ r2.mutable = true) := by
  have hvalsN : dAllB (fun _ v => decide (jsonNormalize cls v = .ok v))
      r.dict = true :=
    dAllB_mono _ _ _
      (fun k v h => by simpa using (c1EntryOk_spec cls k v h).1) hclean
  have hvalsH : dAllB (fun _ v => decide (hookWalk cls v = .ok v))
      r.dict = true :=
    dAllB_mono _ _ _
      (fun k v h => by simpa using (c1EntryOk_spec cls k v h).2.1) hclean
  have hnoclass : dget r.dict "__class__" = Option.none :=
    dget_none_of_dAllBKeys (fun k => !(k == "__class__")) r.dict "__class__"
      (dAllB_mono _ _ _ (fun k v h => by
        simpa using (c1EntryOk_spec cls k v h).2.2.2.2.2) hclean)
      (by simp)
  have hsing_r : ∀ k v, r.dict = PyDict.cons k v PyDict.nil →
      k ≠ "__set__" ∧ k ≠ "__frozenset__" ∧ k ≠ cls.dundername := by
    intro k v heq
    have hk : c1EntryOk cls k v = true := by
      rw [heq] at hclean
      simp only [dAllB, Bool.and_eq_true] at hclean
      exact hclean.1
    obtain ⟨-, -, h1, h2, h3, -⟩ := c1EntryOk_spec cls k v hk
    exact ⟨h1, h2, h3⟩
  obtain ⟨out, hvout, htr, hkeys_out⟩ := validate_canonical cls r.dict hdecl hcanon
  have hs0mut : (objectInit cls PyDict.nil).mutable = true := rfl
  have hdnc : dhas r.dict "__class__" = false := by simp [dhas, hnoclass]
  constructor
  · -- flat style
    have hnd2 : jsonNormalizeDict cls
        (dset r.dict "__class__" (.pystr cls.dundername)) =
        .ok (dset r.dict "__class__" (.pystr cls.dundername)) :=
      jsonNormalizeDict_id cls _
        (dAllB_dset _ r.dict "__class__" (.pystr cls.dundername) hvalsN
          (by simp [jsonNormalize]))
    have htoj : (toJSON cls r Option.none (some "flat")).1 =
        .ok (.pydict (dset r.dict "__class__" (.pystr cls.dundername))) := by
      simp [toJSON, hinc, jsonNormalize, hnd2, Bind.bind, Except.bind]
    have hhw2 : hookWalk cls
        (.pydict (dset r.dict "__class__" (.pystr cls.dundername))) =
        .ok (.pydict (dset r.dict "__class__" (.pystr cls.dundername))) := by
      refine hookWalk_dict_pass cls _ ?_ ?_
      · exact dAllB_dset _ r.dict _ _ hvalsH (by simp [hookWalk])
      · intro k v heq
        rw [dset_singleton_key r.dict "__class__" _ k v heq]
        exact ⟨by decide, by decide, Ne.symm htag3⟩
    have hshape2 : ∀ k v,
        dset r.dict "__class__" (.pystr cls.dundername) =
          PyDict.cons k v PyDict.nil → k ≠ cls.dundername := by
      intro k v heq
      rw [dset_singleton_key r.dict "__class__" _ k v heq]
      exact Ne.symm htag3
    have hclget : dget (dset r.dict "__class__" (.pystr cls.dundername))
        "__class__" = some (.pystr cls.dundername) :=
      dget_dset_self r.dict "__class__" _
    have hpop2 : dpop (dset r.dict "__class__" (.pystr cls.dundername))
        "__class__" = r.dict :=
      dpop_dset_of_not_has r.dict "__class__" _ hdnc
    have hlf : loadFlat cls (objectInit cls PyDict.nil)
        (dset r.dict "__class__" (.pystr cls.dundername))
        cls.verifyclass Option.none =
        ({ objectInit cls PyDict.nil with dict := out }, .ok (), r.dict) := by
      simp [loadFlat, hclget, hpop2, hvout]
    have hld := load_data_flat cls (objectInit cls PyDict.nil)
      (dset r.dict "__class__" (.pystr cls.dundername)) Option.none Option.none
      hs0mut hshape2
    refine ⟨{ objectInit cls PyDict.nil with dict := out }, ?_, ?_, rfl⟩
    · simp [decodeEncode, htoj, newFromJSON, fromJSON, hhw2, hld, hlf]
    · exact htr
  · -- single-key style
    have hnd_r : jsonNormalizeDict cls r.dict = .ok r.dict :=
      jsonNormalizeDict_id cls r.dict hvalsN
    have htoj : (toJSON cls r Option.none (some "single-key")).1 =
        .ok (.pydict (.cons cls.dundername (.pydict r.dict) .nil)) := by
      simp [toJSON, hinc, jsonNormalize, jsonNormalizeDict, hnd_r,
        Bind.bind, Except.bind]
    have hinner : hookWalk cls (.pydict r.dict) = .ok (.pydict r.dict) :=
      hookWalk_dict_pass cls r.dict hvalsH hsing_r
    have hshape_r : ∀ k v, r.dict = PyDict.cons k v PyDict.nil →
        k ≠ cls.dundername :=
      fun k v heq => (hsing_r k v heq).2.2
    have hpop_r : dpop r.dict "__class__" = r.dict :=
      dpop_of_not_has r.dict _ hdnc
    have hlfh : loadFlat cls (objectInit cls PyDict.nil) r.dict false
        Option.none =
        ({ objectInit cls PyDict.nil with dict := out }, .ok (), r.dict) := by
      simp [loadFlat, hpop_r, hvout]
    have hldh : load_data cls (objectInit cls PyDict.nil) (.pydict r.dict)
        Option.none (some false) =
        ({ objectInit cls PyDict.nil with dict := out }, .ok (),
          .pydict r.dict) := by
      rw [load_data_flat cls _ r.dict Option.none (some false) hs0mut hshape_r]
      simp [hlfh]
    have hwd : hookWalkDict cls
        (.cons cls.dundername (.pydict r.dict) .nil) =
        .ok (.cons cls.dundername (.pydict r.dict) .nil) := by
      simp [hookWalkDict, hinner, Bind.bind, Except.bind]
    have houter : hookWalk cls
        (.pydict (.cons cls.dundername (.pydict r.dict) .nil)) =
        .ok (.pyobject out true) := by
      simp only [hookWalk, hwd, Bind.bind, Except.bind]
      simp only [applyHook]
      rw [if_neg htag1, if_neg htag2, if_pos ⟨hreg, trivial⟩, hldh]
      rfl
    have hnoclass_out : dget out "__class__" = Option.none := by
      rw [htr "__class__"]
      exact hnoclass
    have hcanon_out : ∀ na ∈ cls.attrs, match dget out na.1 with
        | some v => attrCall na.2 v = .ok v
        | Option.none => na.2.default = Option.none := by
      intro na hna
      rw [htr na.1]
      exact hcanon na hna
    obtain ⟨out2, hvout2, htr2, -⟩ :=
      validate_canonical cls out hkeys_out hcanon_out
    have hpop_o : dpop out "__class__" = out :=
      dpop_of_not_has out _ (by simp [dhas, hnoclass_out])
    have hlf2 : loadFlat cls (objectInit cls PyDict.nil) out false
        Option.none =
        ({ objectInit cls PyDict.nil with dict := out2 }, .ok (), out) := by
      simp [loadFlat, hpop_o, hvout2]
    refine ⟨{ objectInit cls PyDict.nil with dict := out2 }, ?_, ?_, rfl⟩
    · simp [decodeEncode, htoj, newFromJSON, fromJSON, houter, load_data,
        hs0mut, hlf2]
    · exact fun k => (htr2 k).trans (htr k)

/-- C1 witness: the amended theorem at the one-int-field example class
with the canonical store `{"foo": 5}` (flat style). -/
theorem c1_witness :
    ∃ r2, decodeEncode exCls
        { dict := .cons "foo" (.pyint 5) .nil, mutable := true } "flat" =
        .ok r2 ∧
      storeEqv r2.dict (.cons "foo" (.pyint 5) .nil) ∧ r2.mutable = true :=
  (c1_roundtrip exCls { dict := .cons "foo" (.pyint 5) .nil, mutable := true }
    (by decide) (by decide) (by decide) (by decide) (by decide) (by decide)
    (by
      intro na hna
      simp only [exCls] at hna
      rw [List.mem_singleton] at hna
      subst hna
      show attrCall attrInt (.pyint 5) = Except.ok (.pyint 5)
      decide) (by decide)).1

end Amethyst
